import Mathlib

/-!
Verification of the MyCitadel desktop wallet sync engine and signer.

Shallow embedding of:
  * `src/worker/electrum_watcher.rs` — the Electrum sync worker
    (`electrum_watcher` + the `ElectrumWatcher::with` thread wrapper);
  * `src/model/sign.rs` — the `XprivSigner` secret provider.

Modelling conventions:
  * `Txid`, `Script`, `AddressCompat`, `HeaderNotification`, transaction
    bodies and public keys are opaque to the watcher logic and are
    modelled as `Nat`.
  * `f64`/`f32` values (fee rates, progress fractions) are modelled as
    exact rationals; the progress formula `(no + 1) as f32 / len as f32
    / 20.0` becomes `((no + 1 : ℚ) / len) / 20`.
  * The Electrum client and the wallet descriptor are external
    collaborators; they are modelled as an abstract `Env` record of
    response functions.  Batch calls are functions of their request, the
    block-header poll is indexed by the iteration counter.
  * The event channel is assumed intact: the `expect("channel is
    broken")` panics are not modelled.  `AddressCompat::from_script`
    (`expect("broken descriptor")`) is modelled total via
    `Env.addressFromScript`.
  * `offset` is a `u16` in the source; the increment is taken mod 2^16.
  * The infinite loops (per-branch scan, watching loop) take fuel; fuel
    exhaustion is the distinguished outcome `Res.spin` ("still
    running"), distinct from errors and panics.
-/

namespace MyCitadel

/-- `electrum_client::Error`: opaque transport/protocol error, plus the
`Error::Message` variant used to wrap descriptor errors. -/
inductive EErr where
  | message (s : String)
  | protocol (n : Nat)
  deriving DecidableEq, Repr

/-- Raw entry of `batch_script_get_history` (electrum `GetHistoryRes`):
`tx_hash` and a signed confirmation `height`. -/
structure RawHist where
  txHash : Nat
  height : Int
  deriving DecidableEq, Repr

/-- Raw entry of `batch_script_list_unspent` (electrum `ListUnspentRes`):
`tx_hash`, `height`, `tx_pos` and `value`. -/
structure RawUtxo where
  txHash : Nat
  height : Nat
  txPos : Nat
  value : Nat
  deriving DecidableEq, Repr

/-- `HistoryTxid` from `electrum_watcher.rs`. -/
structure HistoryTxid where
  txid : Nat
  height : Int
  address : Nat
  index : Nat
  change : Bool
  deriving DecidableEq, Repr

/-- `UtxoTxid` from `electrum_watcher.rs`. -/
structure UtxoTxid where
  txid : Nat
  height : Nat
  pos : Nat
  value : Nat
  address : Nat
  index : Nat
  change : Bool
  deriving DecidableEq, Repr

/-- `WatchMsg` from `electrum_watcher.rs`.  The `TxBatch` map
(`BTreeMap<Txid, Transaction>`) is modelled as a key-sorted association
list. -/
inductive WatchMsg where
  | connecting
  | connected
  | complete
  | lastBlock (h : Nat)
  | lastBlockUpdate (h : Nat)
  | feeEstimate (a b c : ℚ)
  | historyBatch (l : List HistoryTxid) (offset : Nat)
  | utxoBatch (l : List UtxoTxid) (offset : Nat)
  | txBatch (m : List (Nat × Nat)) (progress : ℚ)
  | error (e : EErr)
  deriving DecidableEq, Repr

/-- Outcome of running (a stage of) the worker: normal value, propagated
`electrum_client::Error`, Rust panic, or out of fuel inside one of the
source's infinite loops. -/
inductive Res (α : Type) where
  | ok (a : α)
  | err (e : EErr)
  | panic
  | spin
  deriving DecidableEq, Repr

/-- The external world of the worker: the wallet descriptor
(`script_pubkeys`) and the Electrum client.  Batch calls are
deterministic functions of their request; `blockHeadersPop` is indexed
by the watching-loop iteration. -/
structure Env where
  /-- `ElectrumClient::from_config` succeeding or failing. -/
  connect : Except EErr Unit
  /-- `client.block_headers_subscribe()`. -/
  blockHeadersSubscribe : Except EErr Nat
  /-- `client.batch_estimate_fee(targets)`. -/
  batchEstimateFee : List Nat → Except EErr (List ℚ)
  /-- `wallet_settings.script_pubkeys(change, offset..=offset+19)`:
  ordered mapping index → script (BTreeMap iterated in key order). -/
  scriptPubkeys : Bool → Nat → Except String (List (Nat × Nat))
  /-- `client.batch_script_get_history(scripts)`: one result list per
  requested script. -/
  batchScriptGetHistory : List Nat → Except EErr (List (List RawHist))
  /-- `client.batch_script_list_unspent(scripts)`. -/
  batchScriptListUnspent : List Nat → Except EErr (List (List RawUtxo))
  /-- `client.batch_transaction_get(txids)`. -/
  batchTransactionGet : List Nat → Except EErr (List Nat)
  /-- `client.block_headers_pop()` at watching iteration `i`. -/
  blockHeadersPop : Nat → Except EErr (Option Nat)
  /-- `AddressCompat::from_script(script, network)` (network fixed by
  the wallet settings). -/
  addressFromScript : Nat → Nat

/-- Insertion into the `BTreeSet<Txid>` `txids`, modelled as a strictly
sorted list. -/
def insertSet (x : Nat) : List Nat → List Nat
  | [] => [x]
  | y :: ys =>
    if x < y then x :: y :: ys
    else if x = y then y :: ys
    else y :: insertSet x ys

/-- `txids.extend(iter)`: fold of `insertSet`. -/
def extendSet (s : List Nat) (l : List Nat) : List Nat :=
  l.foldl (fun acc x => insertSet x acc) s

/-- The history flat-map of the scan loop body:
`history.zip(&spk).flat_map(...)` building `HistoryTxid` records. -/
def mkHistoryBatch (env : Env) (change : Bool) (histRes : List (List RawHist))
    (spk : List (Nat × Nat)) : List HistoryTxid :=
  ((histRes.zip spk).map fun p =>
    p.1.map fun res =>
      { txid := res.txHash, height := res.height,
        address := env.addressFromScript p.2.2, index := p.2.1,
        change := change }).flatten

/-- The unspent flat-map of the scan loop body: `utxo.zip(spk).flat_map(...)`
building `UtxoTxid` records.  `res.height as u32` and `res.tx_pos as u32`
are usize-to-u32 truncations. -/
def mkUtxoBatch (env : Env) (change : Bool) (utxoRes : List (List RawUtxo))
    (spk : List (Nat × Nat)) : List UtxoTxid :=
  ((utxoRes.zip spk).map fun p =>
    p.1.map fun res =>
      { txid := res.txHash, height := res.height % 4294967296,
        pos := res.txPos % 4294967296, value := res.value,
        address := env.addressFromScript p.2.2, index := p.2.1,
        change := change }).flatten

/-- `history_batch.iter().map(|item| item.index).max().unwrap_or_default()`. -/
def maxIndex (l : List HistoryTxid) : Nat :=
  (l.map HistoryTxid.index).foldl max 0

/-- One branch of the discovery scan: the `loop` inside
`for change in [true, false]`.  State: current window `offset`, the
`upto` index recorded so far, and the shared `txids` set.  Returns the
emitted events together with the loop's break value (`upto`) and the
updated `txids` set. -/
def scanBranch (env : Env) (change : Bool) :
    Nat → Nat → Nat → List Nat → List WatchMsg × Res (Nat × List Nat)
  | 0, _, _, _ => ([], Res.spin)
  | fuel + 1, offset, upto, txids =>
    match env.scriptPubkeys change offset with
    | .error s => ([], Res.err (EErr.message s))
    | .ok spk =>
      match env.batchScriptGetHistory (spk.map Prod.snd) with
      | .error e => ([], Res.err e)
      | .ok histRes =>
        let history_batch := mkHistoryBatch env change histRes spk
        if history_batch.isEmpty then ([], Res.ok (upto, txids))
        else
          let upto1 := maxIndex history_batch
          let txids1 := extendSet txids (history_batch.map HistoryTxid.txid)
          match env.batchScriptListUnspent (spk.map Prod.snd) with
          | .error e => ([WatchMsg.historyBatch history_batch offset], Res.err e)
          | .ok utxoRes =>
            let utxos := mkUtxoBatch env change utxoRes spk
            let txids2 := extendSet txids1 (utxos.map UtxoTxid.txid)
            let (evs, r) :=
              scanBranch env change fuel ((offset + 20) % 65536) upto1 txids2
            (WatchMsg.historyBatch history_batch offset ::
              WatchMsg.utxoBatch utxos offset :: evs, r)

/-- Structural worker for `chunks20`; the fuel is bounded below by the
list length, so the `0, _ :: _` case is never reached. -/
def chunks20Go : Nat → List Nat → List (List Nat)
  | _, [] => []
  | 0, _ :: _ => []
  | fuel + 1, x :: xs =>
    (x :: xs).take 20 :: chunks20Go fuel ((x :: xs).drop 20)

/-- `txids.chunks(20)`: splits into consecutive chunks of at most 20
elements. -/
def chunks20 (l : List Nat) : List (List Nat) :=
  chunks20Go l.length l

/-- The transaction-fetch stage: `for (no, chunk) in txids.chunks(20)
.enumerate()`.  `len` is `txids.len()`; progress is
`(no + 1) as f32 / txids.len() as f32 / 20.0`. -/
def txFetch (env : Env) (len : Nat) : Nat → List (List Nat) → List WatchMsg × Res Unit
  | _, [] => ([], Res.ok ())
  | no, chunk :: rest =>
    match env.batchTransactionGet chunk with
    | .error e => ([], Res.err e)
    | .ok txs =>
      let txmap := chunk.zip txs
      let (evs, r) := txFetch env len (no + 1) rest
      (WatchMsg.txBatch txmap (((no + 1 : ℚ) / (len : ℚ)) / 20) :: evs, r)

/-- The watching loop: sleep, `block_headers_pop()`, send the matching
message, loop.  NOTE: in the source the `Err` arm sends
`WatchMsg::Error(err)` and the loop then continues — there is no `break`
or `return`. -/
def watchLoop (env : Env) : Nat → Nat → List WatchMsg × Res Unit
  | _, 0 => ([], Res.spin)
  | i, fuel + 1 =>
    let step : List WatchMsg :=
      match env.blockHeadersPop i with
      | .ok (some h) => [WatchMsg.lastBlockUpdate h]
      | .error e => [WatchMsg.error e]
      | .ok none => []
    let (evs, r) := watchLoop env (i + 1) fuel
    (step ++ evs, r)

/-- `electrum_watcher`: the full worker body.  `scanFuel` bounds each
branch's window loop, `watchFuel` bounds the watching loop.  The `fee`
indexing `fee[0], fee[1], fee[2]` panics when the estimate vector has
fewer than three entries, hence the `Res.panic` arm. -/
def electrumWatcher (env : Env) (scanFuel watchFuel : Nat) :
    List WatchMsg × Res Unit :=
  match env.connect with
  | .error e => ([WatchMsg.connecting], Res.err e)
  | .ok () =>
    match env.blockHeadersSubscribe with
    | .error e => ([WatchMsg.connecting, WatchMsg.connected], Res.err e)
    | .ok h =>
      match env.batchEstimateFee [1, 2, 3] with
      | .error e =>
        ([WatchMsg.connecting, WatchMsg.connected, WatchMsg.lastBlock h],
          Res.err e)
      | .ok fee =>
        match fee with
        | f0 :: f1 :: f2 :: _ =>
          let ev3 := [WatchMsg.connecting, WatchMsg.connected,
            WatchMsg.lastBlock h, WatchMsg.feeEstimate f0 f1 f2]
          match scanBranch env true scanFuel 0 0 [] with
          | (evA, Res.ok (_, txids1)) =>
            match scanBranch env false scanFuel 0 0 txids1 with
            | (evB, Res.ok (_, txids2)) =>
              match txFetch env txids2.length 0 (chunks20 txids2) with
              | (evT, Res.ok ()) =>
                let (evW, rW) := watchLoop env 0 watchFuel
                (ev3 ++ evA ++ evB ++ evT ++ [WatchMsg.complete] ++ evW, rW)
              | (evT, Res.err e) => (ev3 ++ evA ++ evB ++ evT, Res.err e)
              | (evT, Res.panic) => (ev3 ++ evA ++ evB ++ evT, Res.panic)
              | (evT, Res.spin) => (ev3 ++ evA ++ evB ++ evT, Res.spin)
            | (evB, Res.err e) => (ev3 ++ evA ++ evB, Res.err e)
            | (evB, Res.panic) => (ev3 ++ evA ++ evB, Res.panic)
            | (evB, Res.spin) => (ev3 ++ evA ++ evB, Res.spin)
          | (evA, Res.err e) => (ev3 ++ evA, Res.err e)
          | (evA, Res.panic) => (ev3 ++ evA, Res.panic)
          | (evA, Res.spin) => (ev3 ++ evA, Res.spin)
        | _ =>
          ([WatchMsg.connecting, WatchMsg.connected, WatchMsg.lastBlock h],
            Res.panic)

/-- `ElectrumWatcher::with`: the spawned thread runs `electrum_watcher`
and, when it returns an error, sends exactly one `WatchMsg::Error`.
(`electrum_watcher` can only return `Err`: its final loop is infinite,
so `unwrap_err` on an `Ok` is unreachable and modelled as a panic.) -/
def watcherThread (env : Env) (scanFuel watchFuel : Nat) :
    List WatchMsg × Res Unit :=
  match electrumWatcher env scanFuel watchFuel with
  | (evs, Res.err e) => (evs ++ [WatchMsg.error e], Res.ok ())
  | (evs, Res.ok ()) => (evs, Res.panic)
  | (evs, r) => (evs, r)

/-!
Embedding of `src/model/sign.rs`.

`ExtendedPrivKey`, fingerprints, BIP-32 child derivation and the
secp256k1 keypair constructor come from external crates (`bitcoin`,
`secp256k1`); they are abstracted as the `Secp` record below.  Key and
fingerprint material is opaque to the signer logic and modelled as
`Nat`.  `xpriv.derive_priv` is total, matching the source's
`expect("xpriv derivation does not fail")`.
-/

/-- `bitcoin::util::bip32::ExtendedPrivKey`, keeping the fields the
signer reads: the secret scalar `private_key` and the chain code. -/
structure ExtendedPrivKey where
  privateKey : Nat
  chainCode : Nat
  deriving DecidableEq, Repr

/-- `bitcoin::KeyPair`: a secret scalar paired with its public key. -/
structure KeyPair where
  secretKey : Nat
  publicKey : Nat
  deriving DecidableEq, Repr

/-- The external secp256k1 / BIP-32 library surface used by
`XprivSigner`. -/
structure Secp where
  /-- `xpriv.fingerprint(SECP256K1)`. -/
  fingerprint : ExtendedPrivKey → Nat
  /-- `xpriv.derive_priv(SECP256K1, derivation)`. -/
  derivePriv : ExtendedPrivKey → List Nat → ExtendedPrivKey
  /-- Public key of a secret scalar. -/
  pubFromSecret : Nat → Nat
  /-- `xonly.to_public_key().inner`: full public key of an x-only key. -/
  toPublicKeyInner : Nat → Nat

/-- `KeyPair::from_secret_key(SECP256K1, sk)`: the keypair holding
exactly the given scalar and its public key. -/
def keyPairFromSecretKey (lib : Secp) (sk : Nat) : KeyPair :=
  { secretKey := sk, publicKey := lib.pubFromSecret sk }

/-- `wallet::psbt::sign::SecretProviderError` — the signer only ever
produces the `AccountUnknown(fingerprint, pubkey)` variant. -/
inductive SecretProviderError where
  | accountUnknown (fingerprint : Nat) (pubkey : Nat)
  deriving DecidableEq, Repr

/-- `XprivSigner`: one master extended private key.  (The `secp` field
of the Rust struct is the process-wide signing context, carried here by
the `lib` parameter of each operation.) -/
structure XprivSigner where
  xpriv : ExtendedPrivKey
  deriving DecidableEq, Repr

/-- `XprivSigner::derive_xpriv`. -/
def deriveXpriv (lib : Secp) (s : XprivSigner) (fingerprint : Nat)
    (derivation : List Nat) (pubkey : Nat) :
    Except SecretProviderError ExtendedPrivKey :=
  if fingerprint ≠ lib.fingerprint s.xpriv then
    .error (SecretProviderError.accountUnknown fingerprint pubkey)
  else
    .ok (lib.derivePriv s.xpriv derivation)

/-- `SecretProvider::secret_key` for `XprivSigner`. -/
def secretKey (lib : Secp) (s : XprivSigner) (fingerprint : Nat)
    (derivation : List Nat) (pubkey : Nat) :
    Except SecretProviderError Nat :=
  match deriveXpriv lib s fingerprint derivation pubkey with
  | .error e => .error e
  | .ok xpriv => .ok xpriv.privateKey

/-- `SecretProvider::key_pair` for `XprivSigner`. -/
def keyPair (lib : Secp) (s : XprivSigner) (fingerprint : Nat)
    (derivation : List Nat) (xonly : Nat) :
    Except SecretProviderError KeyPair :=
  match deriveXpriv lib s fingerprint derivation (lib.toPublicKeyInner xonly) with
  | .error e => .error e
  | .ok xpriv => .ok (keyPairFromSecretKey lib xpriv.privateKey)

/-- `SecretProvider::use_musig` for `XprivSigner`. -/
def useMusig (_s : XprivSigner) : Bool := false

/-! Observation functions on emitted event streams. -/

/-- Transaction ids referenced by one event, as counted by the
`txids.extend(..)` calls: history and UTXO batch records. -/
def histUtxoIdsOf : WatchMsg → List Nat
  | WatchMsg.historyBatch l _ => l.map HistoryTxid.txid
  | WatchMsg.utxoBatch l _ => l.map UtxoTxid.txid
  | _ => []

/-- Transaction ids carried (as map keys) by one `TxBatch` event. -/
def txBatchIdsOf : WatchMsg → List Nat
  | WatchMsg.txBatch m _ => m.map Prod.fst
  | _ => []

/-- All ids referenced by `HistoryBatch`/`UtxoBatch` events of a run. -/
def histUtxoIds (evs : List WatchMsg) : List Nat :=
  (evs.map histUtxoIdsOf).flatten

/-- All ids carried by `TxBatch` events of a run. -/
def txBatchIds (evs : List WatchMsg) : List Nat :=
  (evs.map txBatchIdsOf).flatten

/-- The progress fractions of the `TxBatch` events of a run, in emission
order. -/
def progressVals (evs : List WatchMsg) : List ℚ :=
  evs.filterMap fun e =>
    match e with
    | WatchMsg.txBatch _ p => some p
    | _ => none

/-! Concrete environments used to witness the theorems below.  Each
window holds a single script: `scriptPubkeys change offset` maps index
`offset` to script `offset` (receiving branch) or `1000 + offset`
(change branch). -/

/-- A service with no history at all. -/
def envEmpty : Env where
  connect := .ok ()
  blockHeadersSubscribe := .ok 7
  batchEstimateFee := fun _ => .ok [1, 2, 3]
  scriptPubkeys := fun change offset => .ok [(offset, offset + cond change 0 1000)]
  batchScriptGetHistory := fun scripts => .ok (scripts.map fun _ => [])
  batchScriptListUnspent := fun scripts => .ok (scripts.map fun _ => [])
  batchTransactionGet := fun ids => .ok (ids.map fun i => i + 500)
  blockHeadersPop := fun _ => .ok none
  addressFromScript := fun s => s

/-- Scripts below 40 (windows 0 and 1) have history, further windows are
empty; scripts below 25 also hold one unspent output. -/
def envTwoWindows : Env :=
  { envEmpty with
    batchScriptGetHistory := fun scripts =>
      .ok (scripts.map fun s => if s % 1000 < 40 then [⟨s % 7, 1⟩] else [])
    batchScriptListUnspent := fun scripts =>
      .ok (scripts.map fun s => if s % 1000 < 25 then [⟨s % 7, 3, 0, 50⟩] else []) }

/-- Exactly one transaction id (5) in window 0 of each branch. -/
def envOne : Env :=
  { envEmpty with
    batchScriptGetHistory := fun scripts =>
      .ok (scripts.map fun s => if s % 1000 = 0 then [⟨5, 1⟩] else []) }

/-- Connection attempt fails outright. -/
def envConnErr : Env :=
  { envEmpty with connect := .error (EErr.protocol 1) }

/-- The fee-estimate call answers with an empty vector. -/
def envNoFee : Env :=
  { envEmpty with batchEstimateFee := fun _ => .ok [] }

/-- The block poll fails at the first watching iteration and yields a
new header at the second. -/
def envPollErr : Env :=
  { envEmpty with
    blockHeadersPop := fun i => if i = 0 then .error (EErr.protocol 9) else .ok (some 8) }

/-- A concrete secp library instance for witnesses. -/
def libW : Secp where
  fingerprint := fun x => x.privateKey % 100
  derivePriv := fun x d => ⟨x.privateKey + d.foldl (· + ·) 0, x.chainCode⟩
  pubFromSecret := fun n => n + 1
  toPublicKeyInner := fun n => n + 2

/-- A concrete signer for witnesses. -/
def signerW : XprivSigner := ⟨⟨5, 0⟩⟩

/-! ### Lemmas on the txid set -/

theorem mem_insertSet {x a : Nat} {s : List Nat} :
    x ∈ insertSet a s ↔ x = a ∨ x ∈ s := by
  induction s with
  | nil => simp [insertSet]
  | cons y ys ih =>
    simp only [insertSet]
    split_ifs with h1 h2
    · simp only [List.mem_cons]
      try tauto
    · subst h2
      simp only [List.mem_cons]
      try tauto
    · simp only [List.mem_cons, ih]
      try tauto

theorem sorted_insertSet {a : Nat} {s : List Nat}
    (hs : List.Sorted (· < ·) s) :
    List.Sorted (· < ·) (insertSet a s) := by
  induction s with
  | nil => simp [insertSet]
  | cons y ys ih =>
    rw [List.sorted_cons] at hs
    obtain ⟨hy, hys⟩ := hs
    simp only [insertSet]
    split_ifs with h1 h2
    · rw [List.sorted_cons]
      refine ⟨fun b hb => ?_, ?_⟩
      · rcases List.mem_cons.mp hb with rfl | hb
        · exact h1
        · exact h1.trans (hy b hb)
      · rw [List.sorted_cons]
        exact ⟨hy, hys⟩
    · rw [List.sorted_cons]
      exact ⟨hy, hys⟩
    · rw [List.sorted_cons]
      refine ⟨fun b hb => ?_, ih hys⟩
      rcases mem_insertSet.mp hb with rfl | hb
      · omega
      · exact hy b hb

theorem mem_extendSet (x : Nat) : ∀ (l s : List Nat),
    (x ∈ extendSet s l ↔ x ∈ s ∨ x ∈ l)
  | [], s => by simp [extendSet]
  | y :: ys, s => by
    have h := mem_extendSet x ys (insertSet y s)
    simp only [extendSet, List.foldl_cons] at h ⊢
    rw [h, mem_insertSet]
    simp only [List.mem_cons]
    tauto

theorem sorted_extendSet : ∀ (l s : List Nat),
    List.Sorted (· < ·) s → List.Sorted (· < ·) (extendSet s l)
  | [], _, hs => hs
  | y :: ys, s, hs => by
    simp only [extendSet, List.foldl_cons]
    exact sorted_extendSet ys (insertSet y s) (sorted_insertSet hs)

/-! ### Claims about the signer (`sign.rs`) -/

/-- C7: `derive_xpriv` fails exactly when the supplied fingerprint
differs from the master fingerprint, and then with
`AccountUnknown(fingerprint, pubkey)`; on a match it returns the key
derived along the path and cannot fail. -/
theorem claim_C7_derive_unknown_account (lib : Secp) (s : XprivSigner)
    (f : Nat) (d : List Nat) (pk : Nat) :
    ((∃ e, deriveXpriv lib s f d pk = .error e) ↔ f ≠ lib.fingerprint s.xpriv)
    ∧ (f ≠ lib.fingerprint s.xpriv →
        deriveXpriv lib s f d pk =
          .error (SecretProviderError.accountUnknown f pk))
    ∧ (f = lib.fingerprint s.xpriv →
        deriveXpriv lib s f d pk = .ok (lib.derivePriv s.xpriv d)) := by
  unfold deriveXpriv
  by_cases h : f = lib.fingerprint s.xpriv <;> simp [h]

/-- Witness for C7 at a concrete library, signer and mismatching
fingerprint. -/
theorem claim_C7_witness :
    deriveXpriv libW signerW 6 [1, 2] 9 =
      .error (SecretProviderError.accountUnknown 6 9) :=
  (claim_C7_derive_unknown_account libW signerW 6 [1, 2] 9).2.1 (by decide)

/-- C8: on a fingerprint match, derivation (and hence `secret_key` and
`key_pair`) is a pure function of the master key and the path: it does
not depend on the supplied public key nor on which signer instance holds
the same master key. -/
theorem claim_C8_derive_deterministic (lib : Secp) (s t : XprivSigner)
    (f g : Nat) (d : List Nat) (pk qk : Nat)
    (hst : s.xpriv = t.xpriv)
    (hf : f = lib.fingerprint s.xpriv) (hg : g = lib.fingerprint t.xpriv) :
    deriveXpriv lib s f d pk = .ok (lib.derivePriv s.xpriv d)
    ∧ deriveXpriv lib s f d pk = deriveXpriv lib t g d qk
    ∧ secretKey lib s f d pk = secretKey lib t g d qk
    ∧ keyPair lib s f d pk = keyPair lib t g d qk := by
  unfold keyPair secretKey deriveXpriv
  simp [hst, hf, hg]

/-- Witness for C8 at a concrete library and signer. -/
theorem claim_C8_witness :
    deriveXpriv libW signerW 5 [1, 2] 3 =
      .ok (libW.derivePriv signerW.xpriv [1, 2]) :=
  (claim_C8_derive_deterministic libW signerW signerW 5 5 [1, 2] 3 4 rfl
    (by decide) (by decide)).1

/-- C9: `key_pair` reuses the derivation of `secret_key`: both fail on
exactly the same (fingerprint, path) inputs, and on success the secret
scalar inside the returned keypair equals the scalar `secret_key`
returns; the keypair is rebuilt from that scalar. -/
theorem claim_C9_key_pair_reuses_derivation (lib : Secp) (s : XprivSigner)
    (f : Nat) (d : List Nat) (xonly pk : Nat) :
    ((∃ e, keyPair lib s f d xonly = .error e) ↔
      (∃ e, secretKey lib s f d pk = .error e))
    ∧ (∀ kp sk, keyPair lib s f d xonly = .ok kp →
        secretKey lib s f d pk = .ok sk → kp.secretKey = sk)
    ∧ (f = lib.fingerprint s.xpriv →
        keyPair lib s f d xonly =
          .ok (keyPairFromSecretKey lib (lib.derivePriv s.xpriv d).privateKey)) := by
  unfold keyPair secretKey deriveXpriv
  by_cases h : f = lib.fingerprint s.xpriv <;>
    simp [h, keyPairFromSecretKey]

/-- Witness for C9 at a concrete library and signer. -/
theorem claim_C9_witness :
    keyPair libW signerW 5 [3] 8 =
      .ok (keyPairFromSecretKey libW (libW.derivePriv signerW.xpriv [3]).privateKey) :=
  (claim_C9_key_pair_reuses_derivation libW signerW 5 [3] 8 0).2.2 (by decide)

/-! ### Unfolding lemmas for the per-branch scan loop -/

theorem scanBranch_stop (env : Env) (change : Bool) (fuel offset upto : Nat)
    (txids : List Nat) (spk : List (Nat × Nat)) (hr : List (List RawHist))
    (hfuel : fuel ≠ 0)
    (hspk : env.scriptPubkeys change offset = .ok spk)
    (hh : env.batchScriptGetHistory (spk.map Prod.snd) = .ok hr)
    (he : mkHistoryBatch env change hr spk = []) :
    scanBranch env change fuel offset upto txids = ([], Res.ok (upto, txids)) := by
  obtain ⟨m, rfl⟩ : ∃ m, fuel = m + 1 := ⟨fuel - 1, by omega⟩
  simp [scanBranch, hspk, hh, he]

theorem scanBranch_step (env : Env) (change : Bool) (fuel offset upto : Nat)
    (txids : List Nat) (spk : List (Nat × Nat)) (hr : List (List RawHist))
    (ur : List (List RawUtxo))
    (hfuel : fuel ≠ 0)
    (hspk : env.scriptPubkeys change offset = .ok spk)
    (hh : env.batchScriptGetHistory (spk.map Prod.snd) = .ok hr)
    (hu : env.batchScriptListUnspent (spk.map Prod.snd) = .ok ur)
    (hne : mkHistoryBatch env change hr spk ≠ []) :
    scanBranch env change fuel offset upto txids =
      (WatchMsg.historyBatch (mkHistoryBatch env change hr spk) offset ::
        WatchMsg.utxoBatch (mkUtxoBatch env change ur spk) offset ::
        (scanBranch env change (fuel - 1) ((offset + 20) % 65536)
          (maxIndex (mkHistoryBatch env change hr spk))
          (extendSet
            (extendSet txids ((mkHistoryBatch env change hr spk).map HistoryTxid.txid))
            ((mkUtxoBatch env change ur spk).map UtxoTxid.txid))).1,
       (scanBranch env change (fuel - 1) ((offset + 20) % 65536)
          (maxIndex (mkHistoryBatch env change hr spk))
          (extendSet
            (extendSet txids ((mkHistoryBatch env change hr spk).map HistoryTxid.txid))
            ((mkUtxoBatch env change ur spk).map UtxoTxid.txid))).2) := by
  obtain ⟨m, rfl⟩ : ∃ m, fuel = m + 1 := ⟨fuel - 1, by omega⟩
  have hne2 : (mkHistoryBatch env change hr spk).isEmpty = false := by
    rcases hmk : mkHistoryBatch env change hr spk with _ | ⟨a, l⟩
    · exact absurd hmk hne
    · rfl
  simp [scanBranch, hspk, hh, hu, hne2]

/-! ### Shape of the events each stage emits -/

theorem watchLoop_succ (env : Env) (i fuel : Nat) :
    watchLoop env i (fuel + 1) =
      ((match env.blockHeadersPop i with
        | .ok (some h) => [WatchMsg.lastBlockUpdate h]
        | .error e => [WatchMsg.error e]
        | .ok none => []) ++ (watchLoop env (i + 1) fuel).1,
       (watchLoop env (i + 1) fuel).2) := rfl

theorem watchLoop_snd (env : Env) : ∀ (fuel i : Nat),
    (watchLoop env i fuel).2 = Res.spin
  | 0, _ => rfl
  | fuel + 1, i => by
    rw [watchLoop_succ]
    exact watchLoop_snd env fuel (i + 1)

theorem watchLoop_shape (env : Env) : ∀ (fuel i : Nat) (e : WatchMsg),
    e ∈ (watchLoop env i fuel).1 →
    (∃ h, e = WatchMsg.lastBlockUpdate h) ∨ ∃ er, e = WatchMsg.error er
  | 0, i, e => by simp [watchLoop]
  | fuel + 1, i, e => by
    rw [watchLoop_succ]
    intro hmem
    rcases List.mem_append.mp hmem with hmem | hmem
    · rcases hp : env.blockHeadersPop i with er | ho
      · rw [hp] at hmem
        simp at hmem
        exact Or.inr ⟨er, hmem⟩
      · rcases ho with _ | h
        · rw [hp] at hmem
          simp at hmem
        · rw [hp] at hmem
          simp at hmem
          exact Or.inl ⟨h, hmem⟩
    · exact watchLoop_shape env fuel (i + 1) e hmem

theorem txFetch_succ (env : Env) (len no : Nat) (chunk : List Nat)
    (rest : List (List Nat)) (txs : List Nat)
    (ht : env.batchTransactionGet chunk = .ok txs) :
    txFetch env len no (chunk :: rest) =
      (WatchMsg.txBatch (chunk.zip txs) (((no + 1 : ℚ) / (len : ℚ)) / 20) ::
        (txFetch env len (no + 1) rest).1,
       (txFetch env len (no + 1) rest).2) := by
  simp only [txFetch, ht]

theorem txFetch_shape (env : Env) (len : Nat) :
    ∀ (chunks : List (List Nat)) (no : Nat) (e : WatchMsg),
    e ∈ (txFetch env len no chunks).1 → ∃ m p, e = WatchMsg.txBatch m p
  | [], _, e => by simp [txFetch]
  | chunk :: rest, no, e => by
    rcases ht : env.batchTransactionGet chunk with er | txs
    · simp [txFetch, ht]
    · rw [txFetch_succ env len no chunk rest txs ht]
      intro hmem
      rcases List.mem_cons.mp hmem with rfl | hmem
      · exact ⟨_, _, rfl⟩
      · exact txFetch_shape env len rest (no + 1) e hmem

theorem scanBranch_shape (env : Env) (change : Bool) :
    ∀ (fuel offset upto : Nat) (txids : List Nat) (e : WatchMsg),
    e ∈ (scanBranch env change fuel offset upto txids).1 →
    (∃ l o, e = WatchMsg.historyBatch l o) ∨ ∃ l o, e = WatchMsg.utxoBatch l o
  | 0, offset, upto, txids, e => by simp [scanBranch]
  | fuel + 1, offset, upto, txids, e => by
    rcases hspk : env.scriptPubkeys change offset with s | spk
    · simp [scanBranch, hspk]
    · rcases hh : env.batchScriptGetHistory (spk.map Prod.snd) with er | hr
      · simp [scanBranch, hspk, hh]
      · rcases hmk : mkHistoryBatch env change hr spk with _ | ⟨a, l⟩
        · rw [scanBranch_stop env change (fuel + 1) offset upto txids spk hr
            (by omega) hspk hh hmk]
          simp
        · rcases hu : env.batchScriptListUnspent (spk.map Prod.snd) with er | ur
          · simp only [scanBranch, hspk, hh, hu, hmk]
            intro hmem
            simp at hmem
            exact Or.inl ⟨_, _, hmem⟩
          · rw [scanBranch_step env change (fuel + 1) offset upto txids spk hr ur
              (by omega) hspk hh hu (by rw [hmk]; simp)]
            intro hmem
            rcases List.mem_cons.mp hmem with rfl | hmem
            · exact Or.inl ⟨_, _, rfl⟩
            · rcases List.mem_cons.mp hmem with rfl | hmem
              · exact Or.inr ⟨_, _, rfl⟩
              · exact scanBranch_shape env change fuel _ _ _ e hmem

/-! ### Extractor homomorphisms and emptiness -/

theorem flatten_map_eq_nil {f : WatchMsg → List Nat} : ∀ {evs : List WatchMsg},
    (∀ e ∈ evs, f e = []) → (evs.map f).flatten = []
  | [], _ => rfl
  | a :: l, h => by
    simp only [List.map_cons, List.flatten_cons, h a (List.mem_cons_self a l),
      List.nil_append]
    exact flatten_map_eq_nil fun e he => h e (List.mem_cons_of_mem a he)

theorem chunks20Go_flatten : ∀ (fuel : Nat) (l : List Nat),
    l.length ≤ fuel → (chunks20Go fuel l).flatten = l
  | _, [], _ => by cases ‹Nat› <;> rfl
  | 0, x :: xs, h => by simp at h
  | fuel + 1, x :: xs, h => by
    simp only [chunks20Go, List.flatten_cons]
    rw [chunks20Go_flatten fuel ((x :: xs).drop 20)
      (by simp only [List.length_drop, List.length_cons] at h ⊢; omega)]
    exact List.take_append_drop 20 (x :: xs)

theorem chunks20_flatten (l : List Nat) : (chunks20 l).flatten = l :=
  chunks20Go_flatten l.length l le_rfl

theorem chunks20Go_chunk_length : ∀ (fuel : Nat) (l c : List Nat),
    c ∈ chunks20Go fuel l → c.length ≤ 20
  | _, [], c => by cases ‹Nat› <;> simp [chunks20Go]
  | 0, x :: xs, c => by simp [chunks20Go]
  | fuel + 1, x :: xs, c => by
    intro hmem
    rcases List.mem_cons.mp hmem with rfl | hmem
    · simp only [List.length_take]
      omega
    · exact chunks20Go_chunk_length fuel ((x :: xs).drop 20) c hmem

theorem chunks20_chunk_length {l c : List Nat} (h : c ∈ chunks20 l) :
    c.length ≤ 20 :=
  chunks20Go_chunk_length l.length l c h

theorem histUtxoIds_append (l1 l2 : List WatchMsg) :
    histUtxoIds (l1 ++ l2) = histUtxoIds l1 ++ histUtxoIds l2 := by
  simp [histUtxoIds, List.map_append, List.flatten_append]

theorem txBatchIds_append (l1 l2 : List WatchMsg) :
    txBatchIds (l1 ++ l2) = txBatchIds l1 ++ txBatchIds l2 := by
  simp [txBatchIds, List.map_append, List.flatten_append]

theorem progressVals_append (l1 l2 : List WatchMsg) :
    progressVals (l1 ++ l2) = progressVals l1 ++ progressVals l2 := by
  simp [progressVals, List.filterMap_append]

theorem progressVals_eq_nil {evs : List WatchMsg}
    (h : ∀ e ∈ evs, ∀ m p, e ≠ WatchMsg.txBatch m p) : progressVals evs = [] := by
  rw [progressVals, List.filterMap_eq_nil_iff]
  intro e he
  rcases e with _ | _ | _ | _ | _ | _ | _ | _ | ⟨m, p⟩ | _ <;> simp
  exact absurd rfl (h _ he m p)

theorem progressVals_scanBranch (env : Env) (change : Bool)
    (fuel offset upto : Nat) (txids : List Nat) :
    progressVals (scanBranch env change fuel offset upto txids).1 = [] := by
  apply progressVals_eq_nil
  intro e he m p
  rcases scanBranch_shape env change fuel offset upto txids e he with
    ⟨l, o, h⟩ | ⟨l, o, h⟩ <;> (subst h; simp)

theorem progressVals_watchLoop (env : Env) (i fuel : Nat) :
    progressVals (watchLoop env i fuel).1 = [] := by
  apply progressVals_eq_nil
  intro e he m p
  rcases watchLoop_shape env fuel i e he with ⟨h, hq⟩ | ⟨er, hq⟩ <;>
    (subst hq; simp)

theorem error_not_mem_scanBranch (env : Env) (change : Bool)
    (fuel offset upto : Nat) (txids : List Nat) (er : EErr)
    (hmem : WatchMsg.error er ∈ (scanBranch env change fuel offset upto txids).1) :
    False := by
  rcases scanBranch_shape env change fuel offset upto txids _ hmem with
    ⟨l, o, h⟩ | ⟨l, o, h⟩ <;> simp at h

theorem error_not_mem_txFetch (env : Env) (len no : Nat)
    (chunks : List (List Nat)) (er : EErr)
    (hmem : WatchMsg.error er ∈ (txFetch env len no chunks).1) : False := by
  obtain ⟨m, p, h⟩ := txFetch_shape env len chunks no _ hmem
  simp at h

/-- Progress values emitted by the transaction-fetch stage, starting at
batch index `no`, are strictly increasing and bounded below by the
progress of batch `no`. -/
theorem txFetch_progress_sorted (env : Env) (len : Nat) (hlen : 0 < len) :
    ∀ (chunks : List (List Nat)) (no : Nat),
    List.Pairwise (· < ·) (progressVals (txFetch env len no chunks).1)
    ∧ ∀ p ∈ progressVals (txFetch env len no chunks).1,
        ((no : ℚ) + 1) / (len : ℚ) / 20 ≤ p
  | [], no => by simp [txFetch, progressVals]
  | chunk :: rest, no => by
    rcases ht : env.batchTransactionGet chunk with er | txs
    · simp [txFetch, ht, progressVals]
    · have ih := txFetch_progress_sorted env len hlen rest (no + 1)
      have hl : (0 : ℚ) < (len : ℚ) := by exact_mod_cast hlen
      have hstep : ((no : ℚ) + 1) / (len : ℚ) / 20 <
          (((no + 1 : Nat) : ℚ) + 1) / (len : ℚ) / 20 := by
        gcongr
        linarith
      rw [txFetch_succ env len no chunk rest txs ht]
      simp only [progressVals, List.filterMap_cons] at *
      constructor
      · refine List.Pairwise.cons ?_ ih.1
        intro q hq
        exact lt_of_lt_of_le hstep (ih.2 q hq)
      · intro p hp
        rcases List.mem_cons.mp hp with rfl | hp
        · exact le_rfl
        · exact le_trans hstep.le (ih.2 p hp)

/-- Master decomposition of a worker run: the `TxBatch` events of any
run are exactly those of one `txFetch` call whose `len` argument is the
length of the very list being chunked, and `Error` events can only
appear once the run has reached the watching loop (outcome
`Res.spin`). -/
theorem electrumWatcher_events (env : Env) (f1 f2 : Nat) :
    (∃ (txids : List Nat) (evT : List WatchMsg) (r : Res Unit),
      txFetch env txids.length 0 (chunks20 txids) = (evT, r) ∧
      progressVals (electrumWatcher env f1 f2).1 = progressVals evT)
    ∧ (∀ er, WatchMsg.error er ∈ (electrumWatcher env f1 f2).1 →
        (electrumWatcher env f1 f2).2 = Res.spin) := by
  rcases hc : env.connect with ec | u
  · have hrun : electrumWatcher env f1 f2 = ([WatchMsg.connecting], Res.err ec) := by
      simp only [electrumWatcher, hc]
    refine ⟨⟨[], [], Res.ok (), rfl, by rw [hrun]; simp [progressVals]⟩, fun er hmem => ?_⟩
    rw [hrun] at hmem
    simp at hmem
  cases u
  rcases hb : env.blockHeadersSubscribe with eb | hdr
  · have hrun : electrumWatcher env f1 f2 =
        ([WatchMsg.connecting, WatchMsg.connected], Res.err eb) := by
      simp only [electrumWatcher, hc, hb]
    refine ⟨⟨[], [], Res.ok (), rfl, by rw [hrun]; simp [progressVals]⟩, fun er hmem => ?_⟩
    rw [hrun] at hmem
    simp at hmem
  rcases hf : env.batchEstimateFee [1, 2, 3] with ef | fee
  · have hrun : electrumWatcher env f1 f2 =
        ([WatchMsg.connecting, WatchMsg.connected, WatchMsg.lastBlock hdr],
          Res.err ef) := by
      simp only [electrumWatcher, hc, hb, hf]
    refine ⟨⟨[], [], Res.ok (), rfl, by rw [hrun]; simp [progressVals]⟩, fun er hmem => ?_⟩
    rw [hrun] at hmem
    simp at hmem
  rcases fee with _ | ⟨a, _ | ⟨b, _ | ⟨c, rest⟩⟩⟩
  · have hrun : electrumWatcher env f1 f2 =
        ([WatchMsg.connecting, WatchMsg.connected, WatchMsg.lastBlock hdr],
          Res.panic) := by
      simp only [electrumWatcher, hc, hb, hf]
    refine ⟨⟨[], [], Res.ok (), rfl, by rw [hrun]; simp [progressVals]⟩, fun er hmem => ?_⟩
    rw [hrun] at hmem
    simp at hmem
  · have hrun : electrumWatcher env f1 f2 =
        ([WatchMsg.connecting, WatchMsg.connected, WatchMsg.lastBlock hdr],
          Res.panic) := by
      simp only [electrumWatcher, hc, hb, hf]
    refine ⟨⟨[], [], Res.ok (), rfl, by rw [hrun]; simp [progressVals]⟩, fun er hmem => ?_⟩
    rw [hrun] at hmem
    simp at hmem
  · have hrun : electrumWatcher env f1 f2 =
        ([WatchMsg.connecting, WatchMsg.connected, WatchMsg.lastBlock hdr],
          Res.panic) := by
      simp only [electrumWatcher, hc, hb, hf]
    refine ⟨⟨[], [], Res.ok (), rfl, by rw [hrun]; simp [progressVals]⟩, fun er hmem => ?_⟩
    rw [hrun] at hmem
    simp at hmem
  rcases hA : scanBranch env true f1 0 0 [] with ⟨evA, rA⟩
  have hpA : progressVals evA = [] := by
    have h := progressVals_scanBranch env true f1 0 0 []
    rw [hA] at h
    exact h
  have hmA : ∀ er, WatchMsg.error er ∈ evA → False := fun er hm =>
    error_not_mem_scanBranch env true f1 0 0 [] er (by rw [hA]; exact hm)
  cases rA with
  | err eA =>
    have hrun : electrumWatcher env f1 f2 =
        ([WatchMsg.connecting, WatchMsg.connected, WatchMsg.lastBlock hdr,
          WatchMsg.feeEstimate a b c] ++ evA, Res.err eA) := by
      simp only [electrumWatcher, hc, hb, hf, hA]
    refine ⟨⟨[], [], Res.ok (), rfl, ?_⟩, fun er hmem => ?_⟩
    · rw [hrun]
      simp only [progressVals_append, hpA]
      simp [progressVals]
    · rw [hrun] at hmem
      rcases List.mem_append.mp hmem with hm | hm
      · simp at hm
      · exact absurd hm (fun hh => hmA er hh)
  | panic =>
    have hrun : electrumWatcher env f1 f2 =
        ([WatchMsg.connecting, WatchMsg.connected, WatchMsg.lastBlock hdr,
          WatchMsg.feeEstimate a b c] ++ evA, Res.panic) := by
      simp only [electrumWatcher, hc, hb, hf, hA]
    refine ⟨⟨[], [], Res.ok (), rfl, ?_⟩, fun er hmem => ?_⟩
    · rw [hrun]
      simp only [progressVals_append, hpA]
      simp [progressVals]
    · rw [hrun] at hmem
      rcases List.mem_append.mp hmem with hm | hm
      · simp at hm
      · exact absurd hm (fun hh => hmA er hh)
  | spin =>
    have hrun : electrumWatcher env f1 f2 =
        ([WatchMsg.connecting, WatchMsg.connected, WatchMsg.lastBlock hdr,
          WatchMsg.feeEstimate a b c] ++ evA, Res.spin) := by
      simp only [electrumWatcher, hc, hb, hf, hA]
    refine ⟨⟨[], [], Res.ok (), rfl, ?_⟩, fun er hmem => ?_⟩
    · rw [hrun]
      simp only [progressVals_append, hpA]
      simp [progressVals]
    · rw [hrun]
  | ok vA =>
    rcases vA with ⟨uT, txids1⟩
    rcases hB : scanBranch env false f1 0 0 txids1 with ⟨evB, rB⟩
    have hpB : progressVals evB = [] := by
      have h := progressVals_scanBranch env false f1 0 0 txids1
      rw [hB] at h
      exact h
    have hmB : ∀ er, WatchMsg.error er ∈ evB → False := fun er hm =>
      error_not_mem_scanBranch env false f1 0 0 txids1 er (by rw [hB]; exact hm)
    cases rB with
    | err eB =>
      have hrun : electrumWatcher env f1 f2 =
          ([WatchMsg.connecting, WatchMsg.connected, WatchMsg.lastBlock hdr,
            WatchMsg.feeEstimate a b c] ++ evA ++ evB, Res.err eB) := by
        simp only [electrumWatcher, hc, hb, hf, hA, hB]
      refine ⟨⟨[], [], Res.ok (), rfl, ?_⟩, fun er hmem => ?_⟩
      · rw [hrun]
        simp only [progressVals_append, hpA, hpB]
        simp [progressVals]
      · rw [hrun] at hmem
        rcases List.mem_append.mp hmem with hm | hm
        · rcases List.mem_append.mp hm with hm2 | hm2
          · simp at hm2
          · exact absurd hm2 (fun hh => hmA er hh)
        · exact absurd hm (fun hh => hmB er hh)
    | panic =>
      have hrun : electrumWatcher env f1 f2 =
          ([WatchMsg.connecting, WatchMsg.connected, WatchMsg.lastBlock hdr,
            WatchMsg.feeEstimate a b c] ++ evA ++ evB, Res.panic) := by
        simp only [electrumWatcher, hc, hb, hf, hA, hB]
      refine ⟨⟨[], [], Res.ok (), rfl, ?_⟩, fun er hmem => ?_⟩
      · rw [hrun]
        simp only [progressVals_append, hpA, hpB]
        simp [progressVals]
      · rw [hrun] at hmem
        rcases List.mem_append.mp hmem with hm | hm
        · rcases List.mem_append.mp hm with hm2 | hm2
          · simp at hm2
          · exact absurd hm2 (fun hh => hmA er hh)
        · exact absurd hm (fun hh => hmB er hh)
    | spin =>
      have hrun : electrumWatcher env f1 f2 =
          ([WatchMsg.connecting, WatchMsg.connected, WatchMsg.lastBlock hdr,
            WatchMsg.feeEstimate a b c] ++ evA ++ evB, Res.spin) := by
        simp only [electrumWatcher, hc, hb, hf, hA, hB]
      refine ⟨⟨[], [], Res.ok (), rfl, ?_⟩, fun er hmem => ?_⟩
      · rw [hrun]
        simp only [progressVals_append, hpA, hpB]
        simp [progressVals]
      · rw [hrun]
    | ok vB =>
      rcases vB with ⟨uF, txids2⟩
      rcases hT : txFetch env txids2.length 0 (chunks20 txids2) with ⟨evT, rT⟩
      have hmT : ∀ er, WatchMsg.error er ∈ evT → False := fun er hm =>
        error_not_mem_txFetch env txids2.length 0 (chunks20 txids2) er
          (by rw [hT]; exact hm)
      cases rT with
      | err eT =>
        have hrun : electrumWatcher env f1 f2 =
            ([WatchMsg.connecting, WatchMsg.connected, WatchMsg.lastBlock hdr,
              WatchMsg.feeEstimate a b c] ++ evA ++ evB ++ evT, Res.err eT) := by
          simp only [electrumWatcher, hc, hb, hf, hA, hB, hT]
        refine ⟨⟨txids2, evT, Res.err eT, hT, ?_⟩, fun er hmem => ?_⟩
        · rw [hrun]
          simp only [progressVals_append, hpA, hpB]
          simp [progressVals]
        · rw [hrun] at hmem
          rcases List.mem_append.mp hmem with hm | hm
          · rcases List.mem_append.mp hm with hm2 | hm2
            · rcases List.mem_append.mp hm2 with hm3 | hm3
              · simp at hm3
              · exact absurd hm3 (fun hh => hmA er hh)
            · exact absurd hm2 (fun hh => hmB er hh)
          · exact absurd hm (fun hh => hmT er hh)
      | panic =>
        have hrun : electrumWatcher env f1 f2 =
            ([WatchMsg.connecting, WatchMsg.connected, WatchMsg.lastBlock hdr,
              WatchMsg.feeEstimate a b c] ++ evA ++ evB ++ evT, Res.panic) := by
          simp only [electrumWatcher, hc, hb, hf, hA, hB, hT]
        refine ⟨⟨txids2, evT, Res.panic, hT, ?_⟩, fun er hmem => ?_⟩
        · rw [hrun]
          simp only [progressVals_append, hpA, hpB]
          simp [progressVals]
        · rw [hrun] at hmem
          rcases List.mem_append.mp hmem with hm | hm
          · rcases List.mem_append.mp hm with hm2 | hm2
            · rcases List.mem_append.mp hm2 with hm3 | hm3
              · simp at hm3
              · exact absurd hm3 (fun hh => hmA er hh)
            · exact absurd hm2 (fun hh => hmB er hh)
          · exact absurd hm (fun hh => hmT er hh)
      | spin =>
        have hrun : electrumWatcher env f1 f2 =
            ([WatchMsg.connecting, WatchMsg.connected, WatchMsg.lastBlock hdr,
              WatchMsg.feeEstimate a b c] ++ evA ++ evB ++ evT, Res.spin) := by
          simp only [electrumWatcher, hc, hb, hf, hA, hB, hT]
        refine ⟨⟨txids2, evT, Res.spin, hT, ?_⟩, fun er hmem => ?_⟩
        · rw [hrun]
          simp only [progressVals_append, hpA, hpB]
          simp [progressVals]
        · rw [hrun]
      | ok uu =>
        cases uu
        rcases hW : watchLoop env 0 f2 with ⟨evW, rW⟩
        have hpW : progressVals evW = [] := by
          have h := progressVals_watchLoop env 0 f2
          rw [hW] at h
          exact h
        have hsW : rW = Res.spin := by
          have h := watchLoop_snd env f2 0
          rw [hW] at h
          exact h
        have hrun : electrumWatcher env f1 f2 =
            ([WatchMsg.connecting, WatchMsg.connected, WatchMsg.lastBlock hdr,
              WatchMsg.feeEstimate a b c] ++ evA ++ evB ++ evT ++
              [WatchMsg.complete] ++ evW, rW) := by
          simp only [electrumWatcher, hc, hb, hf, hA, hB, hT, hW]
        refine ⟨⟨txids2, evT, Res.ok (), hT, ?_⟩, fun er hmem => ?_⟩
        · rw [hrun]
          simp only [progressVals_append, hpA, hpB, hpW]
          simp [progressVals]
        · rw [hrun, hsW]

theorem txBatchIds_scanBranch (env : Env) (change : Bool)
    (fuel offset upto : Nat) (txids : List Nat) :
    txBatchIds (scanBranch env change fuel offset upto txids).1 = [] := by
  apply flatten_map_eq_nil
  intro e he
  rcases scanBranch_shape env change fuel offset upto txids e he with
    ⟨l, o, h⟩ | ⟨l, o, h⟩ <;> (subst h; rfl)

theorem txBatchIds_watchLoop (env : Env) (i fuel : Nat) :
    txBatchIds (watchLoop env i fuel).1 = [] := by
  apply flatten_map_eq_nil
  intro e he
  rcases watchLoop_shape env fuel i e he with ⟨h, hq⟩ | ⟨er, hq⟩ <;>
    (subst hq; rfl)

theorem histUtxoIds_txFetch (env : Env) (len no : Nat)
    (chunks : List (List Nat)) :
    histUtxoIds (txFetch env len no chunks).1 = [] := by
  apply flatten_map_eq_nil
  intro e he
  obtain ⟨m, p, h⟩ := txFetch_shape env len chunks no e he
  subst h
  rfl

theorem histUtxoIds_watchLoop (env : Env) (i fuel : Nat) :
    histUtxoIds (watchLoop env i fuel).1 = [] := by
  apply flatten_map_eq_nil
  intro e he
  rcases watchLoop_shape env fuel i e he with ⟨h, hq⟩ | ⟨er, hq⟩ <;>
    (subst hq; rfl)

/-- After a successful branch scan, the txid set has been extended by
exactly the ids referenced in the emitted `HistoryBatch`/`UtxoBatch`
events, and it stays strictly sorted. -/
theorem scanBranch_txids (env : Env) (change : Bool) :
    ∀ (fuel offset upto : Nat) (s : List Nat) (evs : List WatchMsg)
      (u : Nat) (s2 : List Nat),
    scanBranch env change fuel offset upto s = (evs, Res.ok (u, s2)) →
    (∀ x, x ∈ s2 ↔ x ∈ s ∨ x ∈ histUtxoIds evs)
    ∧ (List.Sorted (· < ·) s → List.Sorted (· < ·) s2)
  | 0, offset, upto, s, evs, u, s2 => by
    intro h
    exact absurd (congrArg Prod.snd h) (by simp [scanBranch])
  | fuel + 1, offset, upto, s, evs, u, s2 => by
    intro h
    rcases hspk : env.scriptPubkeys change offset with es | spk
    · rw [show scanBranch env change (fuel + 1) offset upto s =
          ([], Res.err (EErr.message es)) by simp [scanBranch, hspk]] at h
      exact absurd (congrArg Prod.snd h) (by simp)
    · rcases hh : env.batchScriptGetHistory (spk.map Prod.snd) with er | hr
      · rw [show scanBranch env change (fuel + 1) offset upto s =
            ([], Res.err er) by simp [scanBranch, hspk, hh]] at h
        exact absurd (congrArg Prod.snd h) (by simp)
      · rcases hmk : mkHistoryBatch env change hr spk with _ | ⟨e0, l0⟩
        · rw [scanBranch_stop env change (fuel + 1) offset upto s spk hr
            (by omega) hspk hh hmk] at h
          simp only [Prod.mk.injEq, Res.ok.injEq] at h
          obtain ⟨h1, -, h5⟩ := h
          subst h1
          subst h5
          refine ⟨fun x => ?_, fun hs => hs⟩
          simp [histUtxoIds]
        · rcases hu : env.batchScriptListUnspent (spk.map Prod.snd) with er | ur
          · rw [show scanBranch env change (fuel + 1) offset upto s =
                ([WatchMsg.historyBatch (mkHistoryBatch env change hr spk) offset],
                  Res.err er) by
              simp only [scanBranch, hspk, hh, hu, hmk]
              rfl] at h
            exact absurd (congrArg Prod.snd h) (by simp)
          · rcases hrec : scanBranch env change fuel ((offset + 20) % 65536)
                (maxIndex (mkHistoryBatch env change hr spk))
                (extendSet
                  (extendSet s ((mkHistoryBatch env change hr spk).map HistoryTxid.txid))
                  ((mkUtxoBatch env change ur spk).map UtxoTxid.txid))
                with ⟨evs2, r2⟩
            rw [scanBranch_step env change (fuel + 1) offset upto s spk hr ur
              (by omega) hspk hh hu (by rw [hmk]; simp)] at h
            simp only [Nat.add_sub_cancel] at h
            rw [hrec] at h
            obtain ⟨h1, h2⟩ := Prod.mk.injEq .. |>.mp h
            subst h1
            subst h2
            have ih := scanBranch_txids env change fuel ((offset + 20) % 65536)
              (maxIndex (mkHistoryBatch env change hr spk))
              (extendSet
                (extendSet s ((mkHistoryBatch env change hr spk).map HistoryTxid.txid))
                ((mkUtxoBatch env change ur spk).map UtxoTxid.txid))
              evs2 u s2 hrec
            constructor
            · intro x
              rw [(ih.1 x), mem_extendSet, mem_extendSet]
              simp only [histUtxoIds, List.map_cons, List.flatten_cons,
                histUtxoIdsOf, List.mem_append]
              rw [histUtxoIds] at *
              tauto
            · intro hs
              exact ih.2 (sorted_extendSet _ _ (sorted_extendSet _ _ hs))

/-- When the service answers each transaction request with one body per
requested id, the `TxBatch` events of a successful fetch carry exactly
the chunked ids, each map keyed by its chunk. -/
theorem txFetch_ids (env : Env) (len : Nat)
    (hconf : ∀ (ch txs : List Nat),
      env.batchTransactionGet ch = .ok txs → txs.length = ch.length) :
    ∀ (chunks : List (List Nat)) (no : Nat) (evs : List WatchMsg),
    txFetch env len no chunks = (evs, Res.ok ()) →
    txBatchIds evs = chunks.flatten
    ∧ ∀ m p, WatchMsg.txBatch m p ∈ evs → ∃ ch ∈ chunks, m.map Prod.fst = ch
  | [], no, evs => by
    intro h
    obtain ⟨h1, -⟩ := Prod.mk.injEq .. |>.mp h
    subst h1
    exact ⟨rfl, by simp⟩
  | chunk :: rest, no, evs => by
    intro h
    rcases ht : env.batchTransactionGet chunk with er | txs
    · rw [show txFetch env len no (chunk :: rest) = ([], Res.err er) by
        simp [txFetch, ht]] at h
      exact absurd (congrArg Prod.snd h) (by simp)
    · rcases hrec : txFetch env len (no + 1) rest with ⟨evs2, r2⟩
      rw [txFetch_succ env len no chunk rest txs ht, hrec] at h
      obtain ⟨h1, h2⟩ := Prod.mk.injEq .. |>.mp h
      subst h1
      subst h2
      have ih := txFetch_ids env len hconf rest (no + 1) evs2 hrec
      have hzip : (chunk.zip txs).map Prod.fst = chunk :=
        List.map_fst_zip chunk txs (le_of_eq (hconf chunk txs ht).symm)
      constructor
      · simp only [txBatchIds, List.map_cons, List.flatten_cons, txBatchIdsOf,
          hzip]
        rw [txBatchIds] at ih
        rw [ih.1]
      · intro m p hmem
        rcases List.mem_cons.mp hmem with heq | hmem
        · obtain ⟨hm, -⟩ := WatchMsg.txBatch.injEq .. |>.mp heq
          exact ⟨chunk, List.mem_cons_self chunk rest, by rw [hm, hzip]⟩
        · obtain ⟨ch, hch, hmap⟩ := ih.2 m p hmem
          exact ⟨ch, List.mem_cons_of_mem chunk hch, hmap⟩

theorem progressVals_watcherThread (env : Env) (f1 f2 : Nat) :
    progressVals (watcherThread env f1 f2).1 =
      progressVals (electrumWatcher env f1 f2).1 := by
  rcases hrun : electrumWatcher env f1 f2 with ⟨evs, r⟩
  cases r with
  | ok u =>
    cases u
    simp [watcherThread, hrun]
  | err e =>
    simp [watcherThread, hrun, progressVals_append, progressVals]
  | panic => simp [watcherThread, hrun]
  | spin => simp [watcherThread, hrun]

/-! ### Claims about the sync engine (`electrum_watcher.rs`) -/

/-- C3 corrected.  The claim fails: a failed block poll inside the
Watching loop sends an `Error` event but the loop continues, so events
can follow that `Error` and the loop is re-entered.  What does hold:
(1) any failure before the Watching state makes the worker emit exactly
one `Error` event, as its final event; (2) a failed poll in the
Watching state emits an `Error` event after which the loop body simply
continues. -/
theorem claim_C3_error_semantics :
    (∀ (env : Env) (f1 f2 : Nat) (evs : List WatchMsg) (e : EErr),
      electrumWatcher env f1 f2 = (evs, Res.err e) →
      watcherThread env f1 f2 = (evs ++ [WatchMsg.error e], Res.ok ())
      ∧ ∀ er, WatchMsg.error er ∉ evs)
    ∧ (∀ (env : Env) (i fuel : Nat) (e : EErr),
      env.blockHeadersPop i = .error e →
      (watchLoop env i (fuel + 1)).1 =
        WatchMsg.error e :: (watchLoop env (i + 1) fuel).1) := by
  constructor
  · intro env f1 f2 evs e hrun
    refine ⟨by simp [watcherThread, hrun], fun er hmem => ?_⟩
    have h2 := (electrumWatcher_events env f1 f2).2 er (by rw [hrun]; exact hmem)
    rw [hrun] at h2
    simp at h2
  · intro env i fuel e hp
    rw [watchLoop_succ, hp]
    rfl

/-- Witness for the corrected C3: a run failing at connection time sends
exactly one final `Error`, and a failing poll emits an `Error` event
and continues the loop. -/
theorem claim_C3_witness :
    (watcherThread envConnErr 1 0 =
        ([WatchMsg.connecting, WatchMsg.error (EErr.protocol 1)], Res.ok ())
      ∧ ∀ er, WatchMsg.error er ∉ [WatchMsg.connecting])
    ∧ (watchLoop envPollErr 0 (1 + 1)).1 =
        WatchMsg.error (EErr.protocol 9) :: (watchLoop envPollErr 1 1).1 :=
  ⟨claim_C3_error_semantics.1 envConnErr 1 0 [WatchMsg.connecting]
      (EErr.protocol 1) (by decide),
    claim_C3_error_semantics.2 envPollErr 0 1 (EErr.protocol 9) (by rfl)⟩

/-- Counterexample to C3 as stated: with a service whose block poll
fails at the first watching iteration and delivers a header at the
second, the run emits `LastBlockUpdate` after the `Error` event — the
`Error` is not final and the Watching loop is re-entered after the poll
failure. -/
theorem claim_C3_counterexample :
    (watcherThread envPollErr 1 2).1 =
      [WatchMsg.connecting, WatchMsg.connected, WatchMsg.lastBlock 7,
        WatchMsg.feeEstimate 1 2 3, WatchMsg.complete,
        WatchMsg.error (EErr.protocol 9), WatchMsg.lastBlockUpdate 8]
    ∧ ¬ (∀ pre e rest, (watcherThread envPollErr 1 2).1 =
          pre ++ WatchMsg.error e :: rest → rest = []) := by
  have h : (watcherThread envPollErr 1 2).1 =
      [WatchMsg.connecting, WatchMsg.connected, WatchMsg.lastBlock 7,
        WatchMsg.feeEstimate 1 2 3, WatchMsg.complete,
        WatchMsg.error (EErr.protocol 9), WatchMsg.lastBlockUpdate 8] := by decide
  refine ⟨h, fun hall => ?_⟩
  have h2 := hall [WatchMsg.connecting, WatchMsg.connected, WatchMsg.lastBlock 7,
      WatchMsg.feeEstimate 1 2 3, WatchMsg.complete] (EErr.protocol 9)
      [WatchMsg.lastBlockUpdate 8] (by rw [h]; rfl)
  simp at h2

/-- C2: in a run whose discovery scans and transaction fetch all
succeed, and whose indexing service answers each transaction request
with one body per requested id, the set of ids carried by the `TxBatch`
events equals exactly the deduplicated union of ids referenced by the
emitted `HistoryBatch`/`UtxoBatch` records (no extras, no omissions),
each id appears in exactly one `TxBatch` (the concatenated key lists
have no duplicate), and every batch holds at most 20 ids. -/
theorem claim_C2_txbatch_coverage (env : Env) (f1 f2 hdr : Nat) (a b c : ℚ)
    (fs : List ℚ) (evA evB evT : List WatchMsg) (uT uF : Nat)
    (txids1 txids2 : List Nat)
    (hc : env.connect = .ok ())
    (hb2 : env.blockHeadersSubscribe = .ok hdr)
    (hf : env.batchEstimateFee [1, 2, 3] = .ok (a :: b :: c :: fs))
    (hA : scanBranch env true f1 0 0 [] = (evA, Res.ok (uT, txids1)))
    (hB : scanBranch env false f1 0 0 txids1 = (evB, Res.ok (uF, txids2)))
    (hT : txFetch env txids2.length 0 (chunks20 txids2) = (evT, Res.ok ()))
    (hconf : ∀ (ch txs : List Nat),
      env.batchTransactionGet ch = .ok txs → txs.length = ch.length) :
    (∀ x, x ∈ txBatchIds (electrumWatcher env f1 f2).1 ↔
        x ∈ histUtxoIds (electrumWatcher env f1 f2).1)
    ∧ (txBatchIds (electrumWatcher env f1 f2).1).Nodup
    ∧ ∀ m p, WatchMsg.txBatch m p ∈ (electrumWatcher env f1 f2).1 →
        m.length ≤ 20 := by
  rcases hW : watchLoop env 0 f2 with ⟨evW, rW⟩
  have hrun : electrumWatcher env f1 f2 =
      ([WatchMsg.connecting, WatchMsg.connected, WatchMsg.lastBlock hdr,
        WatchMsg.feeEstimate a b c] ++ evA ++ evB ++ evT ++
        [WatchMsg.complete] ++ evW, rW) := by
    simp only [electrumWatcher, hc, hb2, hf, hA, hB, hT, hW]
  have htA : txBatchIds evA = [] := by
    have h := txBatchIds_scanBranch env true f1 0 0 []
    rw [hA] at h
    exact h
  have htB : txBatchIds evB = [] := by
    have h := txBatchIds_scanBranch env false f1 0 0 txids1
    rw [hB] at h
    exact h
  have htW : txBatchIds evW = [] := by
    have h := txBatchIds_watchLoop env 0 f2
    rw [hW] at h
    exact h
  have hhT : histUtxoIds evT = [] := by
    have h := histUtxoIds_txFetch env txids2.length 0 (chunks20 txids2)
    rw [hT] at h
    exact h
  have hhW : histUtxoIds evW = [] := by
    have h := histUtxoIds_watchLoop env 0 f2
    rw [hW] at h
    exact h
  have hids := txFetch_ids env txids2.length hconf (chunks20 txids2) 0 evT hT
  have hTx : txBatchIds evT = txids2 := by rw [hids.1, chunks20_flatten]
  have hsA := scanBranch_txids env true f1 0 0 [] evA uT txids1 hA
  have hsB := scanBranch_txids env false f1 0 0 txids1 evB uF txids2 hB
  have hTfull : txBatchIds (electrumWatcher env f1 f2).1 = txids2 := by
    rw [hrun]
    show txBatchIds (_ ++ evA ++ evB ++ evT ++ _ ++ evW) = _
    simp only [txBatchIds_append, htA, htB, htW, hTx]
    simp [txBatchIds, txBatchIdsOf]
  have hHfull : histUtxoIds (electrumWatcher env f1 f2).1 =
      histUtxoIds evA ++ histUtxoIds evB := by
    rw [hrun]
    show histUtxoIds (_ ++ evA ++ evB ++ evT ++ _ ++ evW) = _
    simp only [histUtxoIds_append, hhT, hhW]
    simp [histUtxoIds, histUtxoIdsOf]
  refine ⟨fun x => ?_, ?_, ?_⟩
  · rw [hTfull, hHfull]
    have h1 := hsA.1 x
    have h2 := hsB.1 x
    simp only [List.not_mem_nil, false_or] at h1
    rw [List.mem_append, h2, h1]
  · rw [hTfull]
    exact (hsB.2 (hsA.2 List.sorted_nil)).nodup
  · intro m p hmem
    rw [hrun] at hmem
    rcases List.mem_append.mp hmem with hm | hm
    · rcases List.mem_append.mp hm with hm | hm
      · rcases List.mem_append.mp hm with hm | hm
        · rcases List.mem_append.mp hm with hm | hm
          · rcases List.mem_append.mp hm with hm | hm
            · simp at hm
            · rcases scanBranch_shape env true f1 0 0 [] _
                  (by rw [hA]; exact hm) with ⟨l, o, hq⟩ | ⟨l, o, hq⟩ <;>
                simp at hq
          · rcases scanBranch_shape env false f1 0 0 txids1 _
                (by rw [hB]; exact hm) with ⟨l, o, hq⟩ | ⟨l, o, hq⟩ <;>
              simp at hq
        · obtain ⟨ch, hch, hmap⟩ := hids.2 m p hm
          have hlen : m.length = ch.length := by
            have h := congrArg List.length hmap
            simpa using h
          exact hlen ▸ chunks20_chunk_length hch
      · simp at hm
    · rcases watchLoop_shape env f2 0 _ (by rw [hW]; exact hm) with
        ⟨h, hq⟩ | ⟨er, hq⟩ <;> simp at hq

/-- Witness for C2 on a concrete two-window service: id 6 (present in
both branches' records) is covered, and the `TxBatch` key lists hold no
duplicate. -/
theorem claim_C2_witness :
    (6 ∈ txBatchIds (electrumWatcher envTwoWindows 3 0).1 ↔
      6 ∈ histUtxoIds (electrumWatcher envTwoWindows 3 0).1)
    ∧ (txBatchIds (electrumWatcher envTwoWindows 3 0).1).Nodup := by
  have h := claim_C2_txbatch_coverage envTwoWindows 3 0 7 1 2 3 []
    [WatchMsg.historyBatch [⟨0, 1, 0, 0, true⟩] 0,
      WatchMsg.utxoBatch [⟨0, 3, 0, 50, 0, 0, true⟩] 0,
      WatchMsg.historyBatch [⟨6, 1, 20, 20, true⟩] 20,
      WatchMsg.utxoBatch [⟨6, 3, 0, 50, 20, 20, true⟩] 20]
    [WatchMsg.historyBatch [⟨6, 1, 1000, 0, false⟩] 0,
      WatchMsg.utxoBatch [⟨6, 3, 0, 50, 1000, 0, false⟩] 0,
      WatchMsg.historyBatch [⟨5, 1, 1020, 20, false⟩] 20,
      WatchMsg.utxoBatch [⟨5, 3, 0, 50, 1020, 20, false⟩] 20]
    [WatchMsg.txBatch [(0, 500), (5, 505), (6, 506)]
      ((((0 : Nat) : ℚ) + 1) / ((3 : Nat) : ℚ) / 20)]
    20 20 [0, 6] [0, 5, 6]
    rfl rfl rfl (by decide) (by decide)
    (by
      rw [show chunks20 [0, 5, 6] = [[0, 5, 6]] from by decide]
      rw [show ([0, 5, 6] : List Nat).length = 3 from rfl]
      rw [txFetch_succ envTwoWindows 3 0 [0, 5, 6] [] [500, 505, 506] rfl]
      rfl)
    (fun ch txs hq => by
      injection hq with h2
      rw [← h2]
      simp)
  exact ⟨h.1 6, h.2.1⟩

/-- C6: across any run, the progress fractions of successive `TxBatch`
events are strictly increasing in emission order. -/
theorem claim_C6_progress_monotone (env : Env) (f1 f2 : Nat) :
    List.Pairwise (· < ·) (progressVals (watcherThread env f1 f2).1) := by
  rw [progressVals_watcherThread]
  obtain ⟨⟨txids, evT, r, hT, hp⟩, -⟩ := electrumWatcher_events env f1 f2
  rw [hp]
  rcases txids with _ | ⟨x, xs⟩
  · have h0 : txFetch env ([] : List Nat).length 0 (chunks20 []) =
        ([], Res.ok ()) := rfl
    rw [h0] at hT
    obtain ⟨h1, -⟩ := Prod.mk.injEq .. |>.mp hT
    rw [← h1]
    simp [progressVals]
  · have hlen : 0 < (x :: xs).length := by simp
    have hps := (txFetch_progress_sorted env (x :: xs).length hlen
      (chunks20 (x :: xs)) 0).1
    rw [hT] at hps
    exact hps

/-- C1: gap-limit discovery.  On a branch whose windows at offsets 0 and
20 have non-empty combined history and whose window at offset 40 is
empty, the scan advances the offset by 20 per pass, emits exactly the
two `HistoryBatch`/`UtxoBatch` pairs for offsets 0 and 20, stops at the
first empty window, and the branch's highest-used index is the maximum
derivation index among the history entries of the last non-empty
window.  If already the first window's combined history is empty, no
batch is emitted and the recorded index stays zero. -/
theorem claim_C1_gap_limit_scan (env : Env) (change : Bool) (fuel : Nat)
    (s0 : List Nat) (spk0 spk1 spk2 : List (Nat × Nat))
    (hr0 hr1 hr2 : List (List RawHist)) (ur0 ur1 : List (List RawUtxo))
    (hfuel : 3 ≤ fuel)
    (hspk0 : env.scriptPubkeys change 0 = .ok spk0)
    (hspk1 : env.scriptPubkeys change 20 = .ok spk1)
    (hspk2 : env.scriptPubkeys change 40 = .ok spk2)
    (hh0 : env.batchScriptGetHistory (spk0.map Prod.snd) = .ok hr0)
    (hh1 : env.batchScriptGetHistory (spk1.map Prod.snd) = .ok hr1)
    (hh2 : env.batchScriptGetHistory (spk2.map Prod.snd) = .ok hr2)
    (hu0 : env.batchScriptListUnspent (spk0.map Prod.snd) = .ok ur0)
    (hu1 : env.batchScriptListUnspent (spk1.map Prod.snd) = .ok ur1)
    (hne0 : mkHistoryBatch env change hr0 spk0 ≠ [])
    (hne1 : mkHistoryBatch env change hr1 spk1 ≠ [])
    (he2 : mkHistoryBatch env change hr2 spk2 = []) :
    (scanBranch env change fuel 0 0 s0 =
      ([WatchMsg.historyBatch (mkHistoryBatch env change hr0 spk0) 0,
        WatchMsg.utxoBatch (mkUtxoBatch env change ur0 spk0) 0,
        WatchMsg.historyBatch (mkHistoryBatch env change hr1 spk1) 20,
        WatchMsg.utxoBatch (mkUtxoBatch env change ur1 spk1) 20],
       Res.ok (maxIndex (mkHistoryBatch env change hr1 spk1),
         extendSet
           (extendSet
             (extendSet
               (extendSet s0 ((mkHistoryBatch env change hr0 spk0).map HistoryTxid.txid))
               ((mkUtxoBatch env change ur0 spk0).map UtxoTxid.txid))
             ((mkHistoryBatch env change hr1 spk1).map HistoryTxid.txid))
           ((mkUtxoBatch env change ur1 spk1).map UtxoTxid.txid))))
    ∧ (∀ (fuel2 : Nat) (s2 : List Nat) (spk : List (Nat × Nat))
        (hr : List (List RawHist)), fuel2 ≠ 0 →
        env.scriptPubkeys change 0 = .ok spk →
        env.batchScriptGetHistory (spk.map Prod.snd) = .ok hr →
        mkHistoryBatch env change hr spk = [] →
        scanBranch env change fuel2 0 0 s2 = ([], Res.ok (0, s2))) := by
  constructor
  · rw [scanBranch_step env change fuel 0 0 s0 spk0 hr0 ur0 (by omega)
      hspk0 hh0 hu0 hne0]
    norm_num
    rw [scanBranch_step env change (fuel - 1) 20 _ _ spk1 hr1 ur1 (by omega)
      hspk1 hh1 hu1 hne1]
    norm_num
    rw [scanBranch_stop env change (fuel - 1 - 1) 40 _ _ spk2 hr2 (by omega)
      hspk2 hh2 he2]
    exact ⟨rfl, rfl⟩
  · intro fuel2 s2 spk hr h0 h1 h2 h3
    exact scanBranch_stop env change fuel2 0 0 s2 spk hr h0 h1 h2 h3

/-- Counterexample to C4: with no history for the first window of
either branch, the run completes but emits NO `HistoryBatch` or
`UtxoBatch` event at all — the scan breaks out of the loop before the
send — so the claimed `HistoryBatch([], 0)`/`UtxoBatch([], 0)` events do
not occur. -/
theorem claim_C4_counterexample :
    (watcherThread envEmpty 1 0).1 =
      [WatchMsg.connecting, WatchMsg.connected, WatchMsg.lastBlock 7,
        WatchMsg.feeEstimate 1 2 3, WatchMsg.complete]
    ∧ WatchMsg.historyBatch [] 0 ∉ (watcherThread envEmpty 1 0).1
    ∧ WatchMsg.utxoBatch [] 0 ∉ (watcherThread envEmpty 1 0).1 := by
  refine ⟨by decide, by decide, by decide⟩

/-- C4 amended: when the indexing service reports no history for any
address of the first window on both branches, the engine emits exactly
`Connecting, Connected, LastBlock, FeeEstimate, Complete` (followed
only by watching-loop events) with zero `HistoryBatch`, `UtxoBatch` and
`TxBatch` events. -/
theorem claim_C4_empty_scan (env : Env) (f1 f2 hdr : Nat) (a b c : ℚ)
    (fs : List ℚ) (spkT spkF : List (Nat × Nat)) (hrT hrF : List (List RawHist))
    (hc : env.connect = .ok ())
    (hb : env.blockHeadersSubscribe = .ok hdr)
    (hf : env.batchEstimateFee [1, 2, 3] = .ok (a :: b :: c :: fs))
    (hf1 : f1 ≠ 0)
    (hspkT : env.scriptPubkeys true 0 = .ok spkT)
    (hhT : env.batchScriptGetHistory (spkT.map Prod.snd) = .ok hrT)
    (heT : mkHistoryBatch env true hrT spkT = [])
    (hspkF : env.scriptPubkeys false 0 = .ok spkF)
    (hhF : env.batchScriptGetHistory (spkF.map Prod.snd) = .ok hrF)
    (heF : mkHistoryBatch env false hrF spkF = []) :
    (electrumWatcher env f1 f2).1 =
      [WatchMsg.connecting, WatchMsg.connected, WatchMsg.lastBlock hdr,
        WatchMsg.feeEstimate a b c, WatchMsg.complete] ++ (watchLoop env 0 f2).1
    ∧ (∀ l o, WatchMsg.historyBatch l o ∉ (electrumWatcher env f1 f2).1)
    ∧ (∀ l o, WatchMsg.utxoBatch l o ∉ (electrumWatcher env f1 f2).1)
    ∧ (∀ m p, WatchMsg.txBatch m p ∉ (electrumWatcher env f1 f2).1) := by
  have h1 : electrumWatcher env f1 f2 =
      ([WatchMsg.connecting, WatchMsg.connected, WatchMsg.lastBlock hdr,
        WatchMsg.feeEstimate a b c, WatchMsg.complete] ++ (watchLoop env 0 f2).1,
       (watchLoop env 0 f2).2) := by
    simp only [electrumWatcher, hc, hb, hf,
      scanBranch_stop env true f1 0 0 [] spkT hrT hf1 hspkT hhT heT,
      scanBranch_stop env false f1 0 0 [] spkF hrF hf1 hspkF hhF heF]
    simp [chunks20, chunks20Go, txFetch]
  have hev : (electrumWatcher env f1 f2).1 =
      [WatchMsg.connecting, WatchMsg.connected, WatchMsg.lastBlock hdr,
        WatchMsg.feeEstimate a b c, WatchMsg.complete] ++ (watchLoop env 0 f2).1 := by
    rw [h1]
  refine ⟨hev, ?_, ?_, ?_⟩
  · intro l o hmem
    rw [hev] at hmem
    rcases List.mem_append.mp hmem with hmem | hmem
    · simp at hmem
    · rcases watchLoop_shape env f2 0 _ hmem with ⟨h, heq⟩ | ⟨er, heq⟩ <;>
        simp at heq
  · intro l o hmem
    rw [hev] at hmem
    rcases List.mem_append.mp hmem with hmem | hmem
    · simp at hmem
    · rcases watchLoop_shape env f2 0 _ hmem with ⟨h, heq⟩ | ⟨er, heq⟩ <;>
        simp at heq
  · intro m p hmem
    rw [hev] at hmem
    rcases List.mem_append.mp hmem with hmem | hmem
    · simp at hmem
    · rcases watchLoop_shape env f2 0 _ hmem with ⟨h, heq⟩ | ⟨er, heq⟩ <;>
        simp at heq

/-- Witness for the amended C4 at a concrete empty-history service. -/
theorem claim_C4_witness :
    (electrumWatcher envEmpty 1 0).1 =
      [WatchMsg.connecting, WatchMsg.connected, WatchMsg.lastBlock 7,
        WatchMsg.feeEstimate 1 2 3, WatchMsg.complete] ++ (watchLoop envEmpty 0 0).1 :=
  (claim_C4_empty_scan envEmpty 1 0 7 1 2 3 [] [(0, 0)] [(0, 1000)] [[]] [[]]
    rfl rfl rfl (by omega) rfl rfl (by decide) rfl rfl (by decide)).1

/-- C5 evaluated at the failing input: a run whose accumulated set holds
one transaction id emits its final (only) `TxBatch` with progress
`1/20 = 0.05`, not `1.0`; the values do stay within `(0, 1]`. -/
theorem claim_C5_progress_defect :
    progressVals (watcherThread envOne 2 0).1 = [1 / 20]
    ∧ ((1 : ℚ) / 20 ≠ 1)
    ∧ (∀ p ∈ progressVals (watcherThread envOne 2 0).1, 0 < p ∧ p ≤ 1) := by
  have hA : scanBranch envOne true 2 0 0 [] =
      ([WatchMsg.historyBatch [⟨5, 1, 0, 0, true⟩] 0, WatchMsg.utxoBatch [] 0],
        Res.ok (0, [5])) := by decide
  have hB : scanBranch envOne false 2 0 0 [5] =
      ([WatchMsg.historyBatch [⟨5, 1, 1000, 0, false⟩] 0, WatchMsg.utxoBatch [] 0],
        Res.ok (0, [5])) := by decide
  have hch : chunks20 [5] = [[5]] := by decide
  have hT : txFetch envOne 1 0 [[5]] =
      ([WatchMsg.txBatch [(5, 505)]
          ((((0 : Nat) : ℚ) + 1) / ((1 : Nat) : ℚ) / 20)], Res.ok ()) := by
    rw [txFetch_succ envOne 1 0 [5] [] [505] rfl]
    rfl
  have h2 : electrumWatcher envOne 2 0 =
      ([WatchMsg.connecting, WatchMsg.connected, WatchMsg.lastBlock 7,
        WatchMsg.feeEstimate 1 2 3,
        WatchMsg.historyBatch [⟨5, 1, 0, 0, true⟩] 0, WatchMsg.utxoBatch [] 0,
        WatchMsg.historyBatch [⟨5, 1, 1000, 0, false⟩] 0, WatchMsg.utxoBatch [] 0,
        WatchMsg.txBatch [(5, 505)] ((((0 : Nat) : ℚ) + 1) / ((1 : Nat) : ℚ) / 20),
        WatchMsg.complete], Res.spin) := by
    simp only [electrumWatcher,
      show envOne.connect = Except.ok () from rfl,
      show envOne.blockHeadersSubscribe = Except.ok 7 from rfl,
      show envOne.batchEstimateFee [1, 2, 3] = Except.ok [1, 2, 3] from rfl,
      hA, hB, show ([5] : List Nat).length = 1 from rfl, hch, hT,
      show watchLoop envOne 0 0 = ([], Res.spin) from rfl]
    rfl
  have hrun : progressVals (watcherThread envOne 2 0).1 =
      [(((0 : Nat) : ℚ) + 1) / ((1 : Nat) : ℚ) / 20] := by
    simp only [watcherThread, h2]
    rfl
  refine ⟨?_, by norm_num, ?_⟩
  · rw [hrun]
    norm_num
  · rw [hrun]
    intro p hp
    simp only [List.mem_singleton] at hp
    subst hp
    constructor <;> norm_num

/-- Witness for C1 on a concrete service with activity in windows 0 and
20 and none at 40 (one script per window). -/
theorem claim_C1_witness :
    scanBranch envTwoWindows true 3 0 0 [] =
      ([WatchMsg.historyBatch [⟨0, 1, 0, 0, true⟩] 0,
        WatchMsg.utxoBatch [⟨0, 3, 0, 50, 0, 0, true⟩] 0,
        WatchMsg.historyBatch [⟨6, 1, 20, 20, true⟩] 20,
        WatchMsg.utxoBatch [⟨6, 3, 0, 50, 20, 20, true⟩] 20],
       Res.ok (20, [0, 6])) := by
  rw [(claim_C1_gap_limit_scan envTwoWindows true 3 []
    [(0, 0)] [(20, 20)] [(40, 40)]
    [[⟨0, 1⟩]] [[⟨6, 1⟩]] [[]]
    [[⟨0, 3, 0, 50⟩]] [[⟨6, 3, 0, 50⟩]]
    (by omega) (by rfl) (by rfl) (by rfl) (by rfl) (by rfl)
    (by rfl) (by rfl) (by rfl) (by decide) (by decide) (by decide)).1]
  decide

/-- C10: the fee snapshot indexes the estimate vector at 0, 1 and 2
with no bounds check.  When the service returns (at least) one estimate
per requested confirmation target, the indexing is in bounds and
`FeeEstimate` carries the first three estimates in order; with fewer
than three estimates the worker panics at the indexing, and no `Error`
event is emitted. -/
theorem claim_C10_fee_indexing (env : Env) (f1 f2 hdr : Nat) (fee : List ℚ)
    (hc : env.connect = .ok ())
    (hb : env.blockHeadersSubscribe = .ok hdr)
    (hf : env.batchEstimateFee [1, 2, 3] = .ok fee) :
    (∀ a b c rest, fee = a :: b :: c :: rest →
      ∃ tail, (electrumWatcher env f1 f2).1 =
        [WatchMsg.connecting, WatchMsg.connected, WatchMsg.lastBlock hdr,
          WatchMsg.feeEstimate a b c] ++ tail)
    ∧ (fee.length < 3 →
      watcherThread env f1 f2 =
        ([WatchMsg.connecting, WatchMsg.connected, WatchMsg.lastBlock hdr],
          Res.panic)) := by
  constructor
  · rintro a b c rest rfl
    simp only [electrumWatcher, hc, hb, hf]
    repeat' split
    all_goals exact ⟨_, rfl⟩
  · intro hlen
    match fee, hlen with
    | [], _ =>
      simp [watcherThread, electrumWatcher, hc, hb, hf]
    | [a], _ =>
      simp [watcherThread, electrumWatcher, hc, hb, hf]
    | [a, b], _ =>
      simp [watcherThread, electrumWatcher, hc, hb, hf]
    | a :: b :: c :: rest, hlen =>
      simp only [List.length_cons] at hlen
      omega

/-- Witness for C10: a service answering the fee-estimate request with
an empty vector makes the worker panic before any further event. -/
theorem claim_C10_witness :
    watcherThread envNoFee 1 0 =
      ([WatchMsg.connecting, WatchMsg.connected, WatchMsg.lastBlock 7],
        Res.panic) :=
  (claim_C10_fee_indexing envNoFee 1 0 7 [] rfl rfl rfl).2 (by decide)

end MyCitadel
